import Mathlib

/-!
Verification of cachelib/common/AtomicCounter.h.

Two counter types are embedded:
* `AtomicCounterT w` — the global atomic counter `AtomicCounterT<T>` where `T`
  is an unsigned integer of width `w` bits.  The atomic cell is a natural
  number; every store reduces modulo `2^w`, mirroring unsigned wraparound.
* `TLCounter` — the thread-sharded counter.  It wraps `util::FastStats<uint64_t>`,
  whose source is not part of this repository, so `FastStats` is modelled from
  the spec (see its doc comment).

Sequential atomic operations are modelled as pure state transformers: each
atomic read-modify-write on `std::atomic<T>` becomes a function from the old
cell value to the pair (returned value, new cell value).  The copy
constructor / copy assignment operator are modelled over an explicit heap of
cells so that independence of the copy (claim about aliasing) is expressible.
-/

/-- Global atomic counter `AtomicCounterT<T>`: one atomic integer cell of
width `w` bits.  `val` is the current cell contents. -/
structure AtomicCounterT (w : Nat) where
  val : Nat
deriving DecidableEq, Repr

/-- Unsigned wraparound subtraction: the value of `a - n` computed in a
`w`-bit unsigned integer type, i.e. `(a - n) mod 2^w` on integers. -/
def subMod (w a n : Nat) : Nat :=
  (a + (2 ^ w - n % 2 ^ w)) % 2 ^ w

/-- Constructor `AtomicCounterT(T init)`; the argument is a `T` value, so it is
reduced modulo the width. -/
def AtomicCounterT.mk0 (w init : Nat) : AtomicCounterT w :=
  ⟨init % 2 ^ w⟩

/-- `get()`: `val_.load(std::memory_order_relaxed)`. -/
def AtomicCounterT.get (c : AtomicCounterT w) : Nat :=
  c.val

/-- `set(T n)`: `val_.store(n, std::memory_order_relaxed)`. -/
def AtomicCounterT.set (w : Nat) (_c : AtomicCounterT w) (n : Nat) : AtomicCounterT w :=
  ⟨n % 2 ^ w⟩

/-- `val_.fetch_add(n, relaxed)`: returns the pre-update value and stores the
wrapped sum. -/
def AtomicCounterT.fetchAdd (w : Nat) (c : AtomicCounterT w) (n : Nat) :
    Nat × AtomicCounterT w :=
  (c.val, ⟨(c.val + n) % 2 ^ w⟩)

/-- `val_.fetch_sub(n, relaxed)`: returns the pre-update value and stores the
wrapped difference. -/
def AtomicCounterT.fetchSub (w : Nat) (c : AtomicCounterT w) (n : Nat) :
    Nat × AtomicCounterT w :=
  (c.val, ⟨subMod w c.val n⟩)

/-- `add_fetch(T n)`: `return val_.fetch_add(n, relaxed) + n;` — the `+ n` is
performed in type `T`, hence reduced modulo the width. -/
def AtomicCounterT.add_fetch (w : Nat) (c : AtomicCounterT w) (n : Nat) :
    Nat × AtomicCounterT w :=
  let r := AtomicCounterT.fetchAdd w c n
  ((r.1 + n) % 2 ^ w, r.2)

/-- `add(T n)`: `val_.fetch_add(n, relaxed);` with the result discarded. -/
def AtomicCounterT.add (w : Nat) (c : AtomicCounterT w) (n : Nat) : AtomicCounterT w :=
  (AtomicCounterT.fetchAdd w c n).2

/-- `sub_fetch(T n)`: `return val_.fetch_sub(n, relaxed) - n;` — the `- n` is
performed in type `T`, hence wraps modulo the width. -/
def AtomicCounterT.sub_fetch (w : Nat) (c : AtomicCounterT w) (n : Nat) :
    Nat × AtomicCounterT w :=
  let r := AtomicCounterT.fetchSub w c n
  (subMod w r.1 n, r.2)

/-- `sub(T n)`: `val_.fetch_sub(n, relaxed);` with the result discarded. -/
def AtomicCounterT.sub (w : Nat) (c : AtomicCounterT w) (n : Nat) : AtomicCounterT w :=
  (AtomicCounterT.fetchSub w c n).2

/-- `inc()`: `add(1)`. -/
def AtomicCounterT.inc (w : Nat) (c : AtomicCounterT w) : AtomicCounterT w :=
  AtomicCounterT.add w c 1

/-- `dec()`: `sub(1)`. -/
def AtomicCounterT.dec (w : Nat) (c : AtomicCounterT w) : AtomicCounterT w :=
  AtomicCounterT.sub w c 1

/-- `compare_exchange_strong(T& expected, T& desired)`: delegates to
`val_.compare_exchange_strong(expected, desired)`.  Returns the boolean
result, the new cell, and the (possibly updated) `expected` out-parameter. -/
def AtomicCounterT.compare_exchange_strong (w : Nat) (c : AtomicCounterT w)
    (expected desired : Nat) : Bool × AtomicCounterT w × Nat :=
  if c.val = expected then (true, ⟨desired % 2 ^ w⟩, expected)
  else (false, c, c.val)

/-- `using AtomicCounter = AtomicCounterT<uint64_t>`. -/
abbrev AtomicCounter := AtomicCounterT 64

/-- `using AtomicCounter32 = AtomicCounterT<uint32_t>`. -/
abbrev AtomicCounter32 := AtomicCounterT 32

/-- One `add`/`sub` call on the global counter, as used in claim C6's
sequences of operations. -/
inductive GOp where
  | add (n : Nat)
  | sub (n : Nat)
deriving DecidableEq, Repr

/-- Apply one `GOp` to a global counter. -/
def AtomicCounterT.applyOp (w : Nat) (c : AtomicCounterT w) : GOp → AtomicCounterT w
  | .add n => AtomicCounterT.add w c n
  | .sub n => AtomicCounterT.sub w c n

/-- Run a sequence of `add`/`sub` calls from an initial `T` value. -/
def AtomicCounterT.run (w v0 : Nat) (l : List GOp) : AtomicCounterT w :=
  l.foldl (AtomicCounterT.applyOp w) ⟨v0⟩

/-- Signed contribution of one operation: `+n` for `add n`, `-n` for `sub n`. -/
def GOp.delta : GOp → Int
  | .add n => (n : Int)
  | .sub n => -(n : Int)

/-- Algebraic sum of the deltas of a sequence of operations. -/
def netDelta : List GOp → Int
  | [] => 0
  | op :: rest => op.delta + netDelta rest

/-!
Heap model for copy construction / copy assignment.  Each `AtomicCounterT`
object owns one atomic cell; a heap is the list of cell contents and an
object is the index of its cell.  The copy constructor allocates a fresh
cell holding the loaded source value; copy assignment stores the loaded
source value into the destination's existing cell.
-/

/-- Heap of atomic cells; index `i` is the cell of the `i`-th counter
object, holding its current value. -/
abbrev AHeap := List Nat

/-- `val_.load(relaxed)` of the counter whose cell is at index `i`. -/
def loadCell (h : AHeap) (i : Nat) : Nat :=
  List.getD h i 0

/-- `val_.store(v)` into the cell at index `i`. -/
def storeCell (h : AHeap) (i : Nat) (v : Nat) : AHeap :=
  List.set h i v

/-- Copy constructor `AtomicCounterT(const AtomicCounterT& rhs)`:
`val_{rhs.val_.load(std::memory_order_relaxed)}` — allocates a fresh cell
holding the value loaded from `rhs`'s cell, and returns its index. -/
def copyCtor (h : AHeap) (src : Nat) : AHeap × Nat :=
  (h ++ [loadCell h src], List.length h)

/-- Copy assignment `operator=(const AtomicCounterT& rhs)`:
`val_ = rhs.val_.load(std::memory_order_relaxed)` — stores the value loaded
from `rhs`'s cell into the destination's own cell. -/
def copyAssign (h : AHeap) (dst src : Nat) : AHeap :=
  storeCell h dst (loadCell h src)

/-- One mutating operation of the public interface, applied to the counter
object whose cell is at a given heap index. -/
inductive Mut where
  | add (n : Nat)
  | sub (n : Nat)
  | set (n : Nat)
  | inc
  | dec
deriving DecidableEq, Repr

/-- Apply a mutating operation to the counter whose cell is at index `i`,
for width `w`; each case mirrors the corresponding member function. -/
def heapApply (w : Nat) (h : AHeap) (i : Nat) : Mut → AHeap
  | .add n => storeCell h i ((loadCell h i + n) % 2 ^ w)
  | .sub n => storeCell h i (subMod w (loadCell h i) n)
  | .set n => storeCell h i (n % 2 ^ w)
  | .inc => storeCell h i ((loadCell h i + 1) % 2 ^ w)
  | .dec => storeCell h i (subMod w (loadCell h i) 1)

/-- `get()` of the counter whose cell is at index `i`. -/
def heapGet (h : AHeap) (i : Nat) : Nat :=
  loadCell h i

/-!
Thread-sharded counter `TLCounter`.  Its member `util::FastStats<uint64_t>
val_` comes from `cachelib/common/FastStats.h`, which is not among the
sources; `FastStats` is therefore modelled from the spec.  Thread identity
is an explicit `Nat` argument to every operation (the calling thread).
-/

/-- Per-thread cells of a `FastStats`, an association list from thread id to
the thread's `uint64_t` cell value. -/
abbrev Cells := List (Nat × Nat)

/-- Value of a thread's cell; a thread that never touched the counter has
cell value 0 (a cell is lazily created holding 0). -/
def cellGet : Cells → Nat → Nat
  | [], _ => 0
  | (t, v) :: rest, tid => if t = tid then v else cellGet rest tid

/-- Update a thread's cell through `f`, creating the cell (value 0) first if
the thread has none: the model of mutating `tlStats()` for that thread. -/
def cellUpdate (f : Nat → Nat) : Cells → Nat → Cells
  | [], tid => [(tid, f 0)]
  | (t, v) :: rest, tid =>
      if t = tid then (t, f v) :: rest else (t, v) :: cellUpdate f rest tid

/-- Sum of all per-thread cells, current and historical. -/
def cellSum : Cells → Nat
  | [] => 0
  | (_, v) :: rest => v + cellSum rest

/-- Modelled from the spec: `util::FastStats<uint64_t>`
(cachelib/common/FastStats.h is not among the sources).  Per the spec, it
owns a base value (the construction-time initial value) plus one lazily
created cell per thread that has touched it; a thread's cell persists after
the thread ends.  `tlStats()` is the calling thread's cell; `getSnapshot()`
returns base plus the sum of every cell, current and historical, in
`uint64_t` arithmetic. -/
structure FastStats where
  base : Nat
  cells : Cells

/-- Modelled from the spec: `FastStats::getSnapshot()` — base plus the sum
of all per-thread cells, computed in `uint64_t` arithmetic. -/
def FastStats.getSnapshot (s : FastStats) : Nat :=
  (s.base + cellSum s.cells) % 2 ^ 64

/-- Modelled from the spec: reading `tlStats()` for the calling thread. -/
def FastStats.tlStats (s : FastStats) (tid : Nat) : Nat :=
  cellGet s.cells tid

/-- Modelled from the spec: mutating `tlStats()` for the calling thread
through `f` (lazily creating the cell). -/
def FastStats.setTl (s : FastStats) (tid : Nat) (f : Nat → Nat) : FastStats :=
  { s with cells := cellUpdate f s.cells tid }

/-- Error signalled by the unsupported fetch operations; the message is the
`std::runtime_error` message thrown by the source. -/
inductive CtrError where
  | unsupported (msg : String)
deriving DecidableEq, Repr

/-- Thread-sharded counter `TLCounter`, wrapping a `FastStats`. -/
structure TLCounter where
  val_ : FastStats

/-- Constructor `TLCounter(uint64_t init)`: `val_{init}`. -/
def TLCounter.mk0 (init : Nat) : TLCounter :=
  ⟨⟨init % 2 ^ 64, []⟩⟩

/-- `get()`: `return val_.getSnapshot();`. -/
def TLCounter.get (c : TLCounter) : Nat :=
  c.val_.getSnapshot

/-- `set(uint64_t n)`: `val_.tlStats() = n;` for the calling thread `tid`. -/
def TLCounter.set (c : TLCounter) (tid n : Nat) : TLCounter :=
  ⟨c.val_.setTl tid (fun _ => n % 2 ^ 64)⟩

/-- `add(uint64_t n)`: `val_.tlStats() += n;` for the calling thread `tid`,
in `uint64_t` arithmetic. -/
def TLCounter.add (c : TLCounter) (tid n : Nat) : TLCounter :=
  ⟨c.val_.setTl tid (fun v => (v + n) % 2 ^ 64)⟩

/-- `sub(uint64_t n)`: `val_.tlStats() -= n;` for the calling thread `tid`,
in `uint64_t` arithmetic. -/
def TLCounter.sub (c : TLCounter) (tid n : Nat) : TLCounter :=
  ⟨c.val_.setTl tid (fun v => subMod 64 v n)⟩

/-- `inc()`: `++val_.tlStats();` for the calling thread `tid`. -/
def TLCounter.inc (c : TLCounter) (tid : Nat) : TLCounter :=
  ⟨c.val_.setTl tid (fun v => (v + 1) % 2 ^ 64)⟩

/-- `dec()`: `--val_.tlStats();` for the calling thread `tid`. -/
def TLCounter.dec (c : TLCounter) (tid : Nat) : TLCounter :=
  ⟨c.val_.setTl tid (fun v => subMod 64 v 1)⟩

/-- `add_fetch(uint64_t)`: `throw std::runtime_error("add_fetch not
supported");` — the counter state is returned unchanged alongside the
error, mirroring that the throw happens before any access to `val_`. -/
def TLCounter.add_fetch (c : TLCounter) (_n : Nat) :
    Except CtrError Nat × TLCounter :=
  (Except.error (CtrError.unsupported "add_fetch not supported"), c)

/-- `sub_fetch(uint64_t)`: `throw std::runtime_error("sub_fetch not
supported");` — the counter state is returned unchanged alongside the
error, mirroring that the throw happens before any access to `val_`. -/
def TLCounter.sub_fetch (c : TLCounter) (_n : Nat) :
    Except CtrError Nat × TLCounter :=
  (Except.error (CtrError.unsupported "sub_fetch not supported"), c)

/-!
Helper lemmas: heap cells, per-thread cells, and modular arithmetic casts.
-/

theorem loadCell_store_self (h : AHeap) (i v : Nat) (hi : i < h.length) :
    loadCell (storeCell h i v) i = v := by
  unfold loadCell storeCell
  rw [List.getD_eq_getElem _ _ (by simpa using hi)]
  simp [List.getElem_set_self]

theorem loadCell_store_ne (h : AHeap) (i j v : Nat) (hij : i ≠ j) :
    loadCell (storeCell h i v) j = loadCell h j := by
  unfold loadCell storeCell
  by_cases hj : j < h.length
  · rw [List.getD_eq_getElem _ _ (by simpa using hj), List.getD_eq_getElem _ _ hj]
    exact List.getElem_set_ne hij _
  · rw [List.getD_eq_default _ _ (by simpa using Nat.le_of_not_lt hj),
      List.getD_eq_default _ _ (Nat.le_of_not_lt hj)]

theorem loadCell_append_lt (h : AHeap) (x i : Nat) (hi : i < h.length) :
    loadCell (h ++ [x]) i = loadCell h i :=
  List.getD_append _ _ _ _ hi

theorem loadCell_append_len (h : AHeap) (x : Nat) :
    loadCell (h ++ [x]) h.length = x := by
  unfold loadCell
  rw [List.getD_append_right _ _ _ _ (Nat.le_refl _)]
  simp

theorem cellGet_update_self (f : Nat → Nat) (cs : Cells) (tid : Nat) :
    cellGet (cellUpdate f cs tid) tid = f (cellGet cs tid) := by
  induction cs with
  | nil => simp [cellGet, cellUpdate]
  | cons p rest ih =>
    obtain ⟨t, v⟩ := p
    by_cases ht : t = tid
    · simp [cellGet, cellUpdate, ht]
    · simp [cellGet, cellUpdate, ht, ih]

theorem cellGet_update_ne (f : Nat → Nat) (cs : Cells) (tid tid2 : Nat)
    (hne : tid2 ≠ tid) :
    cellGet (cellUpdate f cs tid) tid2 = cellGet cs tid2 := by
  have hne2 : tid ≠ tid2 := Ne.symm hne
  induction cs with
  | nil => simp [cellGet, cellUpdate, hne2]
  | cons p rest ih =>
    obtain ⟨t, v⟩ := p
    by_cases ht : t = tid
    · subst ht
      simp [cellGet, cellUpdate, hne2]
    · simp [cellGet, cellUpdate, ht, ih]

theorem cellSum_update (f : Nat → Nat) (cs : Cells) (tid : Nat) :
    cellSum (cellUpdate f cs tid) + cellGet cs tid
      = cellSum cs + f (cellGet cs tid) := by
  induction cs with
  | nil => simp [cellSum, cellGet, cellUpdate]
  | cons p rest ih =>
    obtain ⟨t, v⟩ := p
    by_cases ht : t = tid
    · simp [cellSum, cellGet, cellUpdate, ht]
      omega
    · simp [cellSum, cellGet, cellUpdate, ht]
      omega

theorem int_cast_add_mod (M v n : Nat) :
    (((v + n) % M : Nat) : Int) = ((v : Int) + (n : Int)) % (M : Int) := by
  push_cast
  ring_nf

theorem int_cast_sub_mod (M v n : Nat) (hM : 0 < M) :
    ((((v + (M - n % M)) % M : Nat)) : Int) = ((v : Int) - (n : Int)) % (M : Int) := by
  have hle : n % M ≤ M := Nat.le_of_lt (Nat.mod_lt _ hM)
  have h1 : (((v + (M - n % M)) % M : Nat) : Int)
      = (((v : Int) + ((M : Int) - ((n % M : Nat) : Int))) % (M : Int)) := by
    push_cast [hle]
    ring_nf
  rw [h1]
  have h2 : ((v : Int) + ((M : Int) - ((n % M : Nat) : Int)))
      = ((v : Int) - ((n % M : Nat) : Int)) + (M : Int) * 1 := by ring
  rw [h2, Int.add_mul_emod_self_left]
  have h3 : ((n % M : Nat) : Int) = (n : Int) % (M : Int) := by push_cast; ring_nf
  rw [Int.sub_emod, h3, Int.emod_emod_of_dvd _ dvd_rfl, ← Int.sub_emod]

theorem int_cast_subMod (w v n : Nat) :
    ((subMod w v n : Nat) : Int) = ((v : Int) - (n : Int)) % ((2 ^ w : Nat) : Int) := by
  unfold subMod
  exact int_cast_sub_mod _ _ _ (pow_pos (by norm_num) w)

theorem int_emod_add_left (a b M : Int) : (a % M + b) % M = (a + b) % M := by
  rw [Int.add_emod (a % M) b, Int.emod_emod_of_dvd _ dvd_rfl, ← Int.add_emod]

theorem netDelta_map_sum (l : List GOp) : netDelta l = (l.map GOp.delta).sum := by
  induction l with
  | nil => rfl
  | cons op rest ih => simp [netDelta, ih]

theorem netDelta_perm (l1 l2 : List GOp) (hp : l1.Perm l2) :
    netDelta l1 = netDelta l2 := by
  rw [netDelta_map_sum, netDelta_map_sum]
  exact (hp.map GOp.delta).sum_eq

theorem run_get_int (w : Nat) (l : List GOp) : ∀ v0 : Nat, v0 < 2 ^ w →
    ((AtomicCounterT.run w v0 l).get : Int)
      = ((v0 : Int) + netDelta l) % ((2 ^ w : Nat) : Int) := by
  induction l with
  | nil =>
    intro v0 hv
    have h0 : ((AtomicCounterT.run w v0 []).get : Int) = (v0 : Int) := rfl
    rw [h0]
    simp only [netDelta, add_zero]
    rw [Int.emod_eq_of_lt (Int.natCast_nonneg v0) (by exact_mod_cast hv)]
  | cons op rest ih =>
    intro v0 hv
    have hpos : 0 < 2 ^ w := pow_pos (by norm_num) w
    cases op with
    | add n =>
      have hstep : AtomicCounterT.run w v0 (GOp.add n :: rest)
          = AtomicCounterT.run w ((v0 + n) % 2 ^ w) rest := rfl
      rw [hstep, ih _ (Nat.mod_lt _ hpos), int_cast_add_mod, int_emod_add_left]
      simp only [netDelta, GOp.delta]
      ring_nf
    | sub n =>
      have hstep : AtomicCounterT.run w v0 (GOp.sub n :: rest)
          = AtomicCounterT.run w (subMod w v0 n) rest := rfl
      have hlt : subMod w v0 n < 2 ^ w := by
        unfold subMod
        exact Nat.mod_lt _ hpos
      rw [hstep, ih _ hlt, int_cast_subMod, int_emod_add_left]
      simp only [netDelta, GOp.delta]
      ring_nf

/-!
Claim theorems.
-/

/-- C1: for every counter state `v` and delta `n`, `add_fetch(n)` on the
global atomic counter returns the post-update value `v + n` (modulo the
width) and leaves the cell holding it; `sub_fetch(n)` likewise returns and
stores `v - n` modulo the width. -/
theorem AtomicCounterT.add_fetch_sub_fetch_post (w v n : Nat) :
    AtomicCounterT.add_fetch w ⟨v⟩ n = ((v + n) % 2 ^ w, ⟨(v + n) % 2 ^ w⟩)
    ∧ AtomicCounterT.sub_fetch w ⟨v⟩ n = (subMod w v n, ⟨subMod w v n⟩)
    ∧ (((v + n) % 2 ^ w : Nat) : Int) = ((v : Int) + (n : Int)) % ((2 ^ w : Nat) : Int)
    ∧ ((subMod w v n : Nat) : Int) = ((v : Int) - (n : Int)) % ((2 ^ w : Nat) : Int) :=
  ⟨rfl, rfl, int_cast_add_mod _ _ _, int_cast_subMod _ _ _⟩

/-- C2: `add_fetch`/`sub_fetch` on the sharded counter signal the
unsupported-operation error for every state and argument, and never return
a numeric value. -/
theorem TLCounter.fetch_unsupported (c : TLCounter) (n : Nat) :
    (TLCounter.add_fetch c n).1
        = Except.error (CtrError.unsupported "add_fetch not supported")
    ∧ (TLCounter.sub_fetch c n).1
        = Except.error (CtrError.unsupported "sub_fetch not supported")
    ∧ (∀ x : Nat, (TLCounter.add_fetch c n).1 ≠ Except.ok x)
    ∧ (∀ x : Nat, (TLCounter.sub_fetch c n).1 ≠ Except.ok x) := by
  refine ⟨rfl, rfl, ?_, ?_⟩ <;> intro x <;>
    simp [TLCounter.add_fetch, TLCounter.sub_fetch]

/-- C9: on both counter types, `inc()` equals `add(1)` and `dec()` equals
`sub(1)` as state transformers (on the sharded counter, for the calling
thread's cell). -/
theorem inc_dec_eq_add_sub_one (w : Nat) (c : AtomicCounterT w)
    (tc : TLCounter) (tid : Nat) :
    AtomicCounterT.inc w c = AtomicCounterT.add w c 1
    ∧ AtomicCounterT.dec w c = AtomicCounterT.sub w c 1
    ∧ TLCounter.inc tc tid = TLCounter.add tc tid 1
    ∧ TLCounter.dec tc tid = TLCounter.sub tc tid 1 :=
  ⟨rfl, rfl, rfl, rfl⟩

/-- C10: a failing `add_fetch`/`sub_fetch` call on the sharded counter
leaves the counter state completely unchanged, so `get()` returns the same
value after the failed call as before it. -/
theorem TLCounter.fetch_state_unchanged (c : TLCounter) (n : Nat) :
    (TLCounter.add_fetch c n).2 = c
    ∧ (TLCounter.sub_fetch c n).2 = c
    ∧ TLCounter.get (TLCounter.add_fetch c n).2 = TLCounter.get c
    ∧ TLCounter.get (TLCounter.sub_fetch c n).2 = TLCounter.get c :=
  ⟨rfl, rfl, rfl, rfl⟩

/-- C8: arithmetic on both counter types wraps modulo `2^w` with no
saturation and no failure (the operations are total functions); in
particular a 32-bit counter holding the maximum representable value yields
0 after one `inc()`. -/
theorem wraparound_modular (w v n : Nat) (c : TLCounter) (tid : Nat) :
    (AtomicCounterT.add w ⟨v⟩ n).val = (v + n) % 2 ^ w
    ∧ (AtomicCounterT.add w ⟨v⟩ n).val < 2 ^ w
    ∧ (AtomicCounterT.sub w ⟨v⟩ n).val < 2 ^ w
    ∧ cellGet (TLCounter.add c tid n).val_.cells tid
        = (cellGet c.val_.cells tid + n) % 2 ^ 64
    ∧ cellGet (TLCounter.sub c tid n).val_.cells tid
        = subMod 64 (cellGet c.val_.cells tid) n
    ∧ AtomicCounterT.get (AtomicCounterT.inc 32 ⟨2 ^ 32 - 1⟩) = 0 := by
  have hpos : 0 < 2 ^ w := pow_pos (by norm_num) w
  refine ⟨rfl, Nat.mod_lt _ hpos, ?_, ?_, ?_, ?_⟩
  · show subMod w v n < 2 ^ w
    unfold subMod
    exact Nat.mod_lt _ hpos
  · simp [TLCounter.add, FastStats.setTl, cellGet_update_self]
  · simp [TLCounter.sub, FastStats.setTl, cellGet_update_self]
  · show (2 ^ 32 - 1 + 1) % 2 ^ 32 = 0
    norm_num

/-- C3: `compare_exchange_strong(e, d)` on the global counter succeeds and
stores `d` iff the cell's value equals `e`; on failure it returns false,
leaves the cell unchanged, and writes the cell's value into `expected`. -/
theorem AtomicCounterT.compare_exchange_strong_spec (w v e d : Nat)
    (hd : d < 2 ^ w) :
    ((AtomicCounterT.compare_exchange_strong w ⟨v⟩ e d).1 = true ↔ v = e)
    ∧ (v = e →
        AtomicCounterT.compare_exchange_strong w ⟨v⟩ e d = (true, ⟨d⟩, e))
    ∧ (v ≠ e →
        AtomicCounterT.compare_exchange_strong w ⟨v⟩ e d = (false, ⟨v⟩, v)) := by
  unfold AtomicCounterT.compare_exchange_strong
  by_cases h : v = e <;> simp [h, Nat.mod_eq_of_lt hd]

/-- Witness for C3 at `w = 8`, `v = e = 3`, `d = 5`. -/
theorem AtomicCounterT.compare_exchange_strong_spec_witness :
    (5 < 2 ^ 8)
    ∧ ((AtomicCounterT.compare_exchange_strong 8 ⟨3⟩ 3 5).1 = true ↔ 3 = 3) :=
  ⟨by norm_num,
    (AtomicCounterT.compare_exchange_strong_spec 8 3 3 5 (by norm_num)).1⟩

/-- C6: the final `get()` after any sequence of `add`/`sub` calls on the
global counter equals the initial value plus the algebraic sum of the
deltas, modulo the width, and the result is independent of the order of
application. -/
theorem AtomicCounterT.run_net_delta_order_independent (w v0 : Nat)
    (hv : v0 < 2 ^ w) (l1 l2 : List GOp) (hp : l1.Perm l2) :
    ((AtomicCounterT.run w v0 l1).get : Int)
        = ((v0 : Int) + netDelta l1) % ((2 ^ w : Nat) : Int)
    ∧ (AtomicCounterT.run w v0 l1).get = (AtomicCounterT.run w v0 l2).get := by
  have h1 := run_get_int w l1 v0 hv
  have h2 := run_get_int w l2 v0 hv
  refine ⟨h1, ?_⟩
  have hnd := netDelta_perm l1 l2 hp
  have hcast : ((AtomicCounterT.run w v0 l1).get : Int)
      = ((AtomicCounterT.run w v0 l2).get : Int) := by
    rw [h1, h2, hnd]
  exact_mod_cast hcast

/-- Witness for C6 at `w = 4`, `v0 = 3`, with the two-element sequence
`[add 2, sub 5]` and its transposition. -/
theorem AtomicCounterT.run_net_delta_order_independent_witness :
    (3 < 2 ^ 4)
    ∧ ([GOp.add 2, GOp.sub 5].Perm [GOp.sub 5, GOp.add 2])
    ∧ (AtomicCounterT.run 4 3 [GOp.add 2, GOp.sub 5]).get
        = (AtomicCounterT.run 4 3 [GOp.sub 5, GOp.add 2]).get :=
  ⟨by norm_num, by decide,
    (AtomicCounterT.run_net_delta_order_independent 4 3 (by norm_num)
      [GOp.add 2, GOp.sub 5] [GOp.sub 5, GOp.add 2] (by decide)).2⟩

/-- C7: copying a global counter (copy construction or copy assignment)
yields an independent cell holding a snapshot of the source's value at copy
time: every subsequent mutation of the original leaves the copy's `get()`
unchanged, and every mutation of the copy leaves the original's `get()`
unchanged. -/
theorem AtomicCounterT.copy_independent (w : Nat) (h : AHeap) (src dst : Nat)
    (hsrc : src < h.length) (hdst : dst < h.length) (hne : dst ≠ src) :
    (heapGet (copyCtor h src).1 (copyCtor h src).2 = heapGet h src)
    ∧ (∀ m : Mut, heapGet (heapApply w (copyCtor h src).1 src m) (copyCtor h src).2
        = heapGet (copyCtor h src).1 (copyCtor h src).2)
    ∧ (∀ m : Mut, heapGet (heapApply w (copyCtor h src).1 (copyCtor h src).2 m) src
        = heapGet (copyCtor h src).1 src)
    ∧ (heapGet (copyAssign h dst src) dst = heapGet h src)
    ∧ (∀ m : Mut, heapGet (heapApply w (copyAssign h dst src) src m) dst
        = heapGet (copyAssign h dst src) dst)
    ∧ (∀ m : Mut, heapGet (heapApply w (copyAssign h dst src) dst m) src
        = heapGet (copyAssign h dst src) src) := by
  have hsne : src ≠ h.length := Nat.ne_of_lt hsrc
  have hsd : src ≠ dst := Ne.symm hne
  refine ⟨?_, ?_, ?_, ?_, ?_, ?_⟩
  · show loadCell (h ++ [loadCell h src]) h.length = loadCell h src
    exact loadCell_append_len h _
  · intro m
    cases m <;> exact loadCell_store_ne _ _ _ _ hsne
  · intro m
    cases m <;> exact loadCell_store_ne _ _ _ _ (Ne.symm hsne)
  · show loadCell (storeCell h dst (loadCell h src)) dst = loadCell h src
    exact loadCell_store_self h dst _ hdst
  · intro m
    cases m <;> exact loadCell_store_ne _ _ _ _ hsd
  · intro m
    cases m <;> exact loadCell_store_ne _ _ _ _ hne

/-- Witness for C7 on the two-cell heap `[7, 9]` with `src = 0`, `dst = 1`. -/
theorem AtomicCounterT.copy_independent_witness :
    (0 < ([7, 9] : AHeap).length)
    ∧ (1 < ([7, 9] : AHeap).length)
    ∧ ((1 : Nat) ≠ 0)
    ∧ heapGet (copyCtor [7, 9] 0).1 (copyCtor [7, 9] 0).2 = heapGet [7, 9] 0 :=
  ⟨by norm_num, by norm_num, by norm_num,
    (AtomicCounterT.copy_independent 64 [7, 9] 0 1 (by norm_num) (by norm_num)
      (by norm_num)).1⟩

/-- C4: the sharded counter's `get()` returns base plus the sum of every
per-thread cell (in `uint64_t` arithmetic); operations leave the base
unchanged; and after thread A calls `add(5)` and thread B calls `add(3)` on
a fresh counter, `get()` equals `base + 8`. -/
theorem TLCounter.get_base_plus_cells (c : TLCounter) (base tidA tidB : Nat)
    (hab : tidA ≠ tidB) (hb : base + 8 < 2 ^ 64) :
    TLCounter.get c = (c.val_.base + cellSum c.val_.cells) % 2 ^ 64
    ∧ (TLCounter.add c tidA 5).val_.base = c.val_.base
    ∧ TLCounter.get (TLCounter.add (TLCounter.add (TLCounter.mk0 base) tidA 5) tidB 3)
        = base + 8 := by
  have hb64 : base < 2 ^ 64 := Nat.lt_of_le_of_lt (Nat.le_add_right base 8) hb
  refine ⟨rfl, rfl, ?_⟩
  have h5 : (0 + 5) % 2 ^ 64 = 5 := by norm_num
  have h3 : (0 + 3) % 2 ^ 64 = 3 := by norm_num
  simp only [TLCounter.get, TLCounter.add, TLCounter.mk0, FastStats.setTl,
    FastStats.getSnapshot, cellUpdate, cellSum, hab, if_false, h5, h3,
    Nat.mod_eq_of_lt hb64]
  have : base + (5 + (3 + 0)) = base + 8 := by omega
  rw [this]
  exact Nat.mod_eq_of_lt hb

/-- Witness for C4 with `base = 0`, thread ids 0 and 1. -/
theorem TLCounter.get_base_plus_cells_witness :
    ((0 : Nat) ≠ 1)
    ∧ (0 + 8 < 2 ^ 64)
    ∧ TLCounter.get (TLCounter.add (TLCounter.add (TLCounter.mk0 0) 0 5) 1 3)
        = 0 + 8 :=
  ⟨by norm_num, by norm_num,
    (TLCounter.get_base_plus_cells (TLCounter.mk0 0) 0 0 1 (by norm_num)
      (by norm_num)).2.2⟩

/-- C5: `set(n)` on the sharded counter sets only the calling thread's cell
to `n`, leaving every other thread's cell and the base unchanged; on a
fresh counter where the calling thread's cell is the only one ever touched,
`get()` after `set(n)` equals `base + n`; and in general `set` does not
make the logical total exactly `n`. -/
theorem TLCounter.set_frame (c : TLCounter) (tid n base : Nat)
    (hn : n < 2 ^ 64) :
    (TLCounter.set c tid n).val_.base = c.val_.base
    ∧ (∀ tid2, tid2 ≠ tid →
        cellGet (TLCounter.set c tid n).val_.cells tid2 = cellGet c.val_.cells tid2)
    ∧ cellGet (TLCounter.set c tid n).val_.cells tid = n
    ∧ (base + n < 2 ^ 64 →
        TLCounter.get (TLCounter.set (TLCounter.mk0 base) tid n) = base + n)
    ∧ TLCounter.get (TLCounter.set (TLCounter.mk0 1) tid 0) ≠ 0 := by
  refine ⟨rfl, ?_, ?_, ?_, ?_⟩
  · intro tid2 h2
    exact cellGet_update_ne _ _ _ _ h2
  · show cellGet (cellUpdate (fun _ => n % 2 ^ 64) c.val_.cells tid) tid = n
    rw [cellGet_update_self]
    exact Nat.mod_eq_of_lt hn
  · intro hbn
    have hb64 : base < 2 ^ 64 := Nat.lt_of_le_of_lt (Nat.le_add_right base n) hbn
    simp only [TLCounter.get, TLCounter.set, TLCounter.mk0, FastStats.setTl,
      FastStats.getSnapshot, cellUpdate, cellSum, Nat.mod_eq_of_lt hb64,
      Nat.mod_eq_of_lt hn, Nat.add_zero]
    exact Nat.mod_eq_of_lt hbn
  · norm_num [TLCounter.get, TLCounter.set, TLCounter.mk0, FastStats.setTl,
      FastStats.getSnapshot, cellUpdate, cellSum]

/-- Witness for C5 with thread id 4, `n = 7`, `base = 2`. -/
theorem TLCounter.set_frame_witness :
    ((7 : Nat) < 2 ^ 64)
    ∧ cellGet (TLCounter.set (TLCounter.mk0 0) 4 7).val_.cells 4 = 7 :=
  ⟨by norm_num, (TLCounter.set_frame (TLCounter.mk0 0) 4 7 2 (by norm_num)).2.2.1⟩
